import Mathlib

/-!
Shallow embedding of `backend/scripts/xlsx_to_json.py`.

The script decodes an xlsx workbook (a zip of XML parts) into a mapping
from sheet name to a list of header-keyed records.  The embedding models
the archive as its already-parsed XML parts (a zip entry is present in
`namelist()` exactly when the corresponding field of `Archive` holds it),
pure Python helpers as Lean functions, and exceptions as `Option`
(`none` = the Python code raises at that point).  Machine-level caveats
of the model, each noted at the definition it concerns: Python `int()` /
`float()` accept Unicode digits, underscores and `inf`/`nan`, which the
model does not; the fractional day count is handled as an exact rational
where CPython rounds the serial through IEEE doubles first; `strftime`
year padding below 1000 is platform dependent and modelled as
zero-padded.  No theorem below depends on these corners.
-/

/-! ## String helpers (Python semantics, over `List Char`)

Lean's own `String` primitives are re-implemented structurally here so
that every definition evaluates by kernel reduction. -/

/-- Whitespace set of Python `str.strip()` (ASCII part). -/
def isSpaceChar (c : Char) : Bool :=
  c == ' ' || c == '\t' || c == '\n' || c == '\r' || c == '\x0b' || c == '\x0c'

/-- Python `s.strip()`: remove leading and trailing whitespace. -/
def pyStrip (s : String) : String :=
  String.mk (((s.data.dropWhile isSpaceChar).reverse.dropWhile isSpaceChar).reverse)

/-- Digit run to a natural number; `none` when empty or a non-digit occurs. -/
def strToNat (s : String) : Option Nat :=
  if s.data ≠ [] ∧ s.data.all Char.isDigit then
    some (s.data.foldl (fun a c => a * 10 + (c.toNat - 48)) 0)
  else none

/-- Python `int(s)`: strip whitespace, optional sign, decimal digits.
(Unicode digits and `_` separators accepted by CPython are not modelled.) -/
def pyInt (s : String) : Option Int :=
  let t := pyStrip s
  let sign : Int := if t.data.take 1 = ['-'] then -1 else 1
  let mag := if t.data.take 1 = ['-'] ∨ t.data.take 1 = ['+'] then String.mk (t.data.drop 1) else t
  match strToNat mag with
  | some n => some (sign * n)
  | none => none

/-- Split a character list at every separator character. -/
def splitCharsAux (sep : Char → Bool) : List Char → List Char × List (List Char)
  | [] => ([], [])
  | c :: rest =>
    let r := splitCharsAux sep rest
    if sep c then ([], r.1 :: r.2) else (c :: r.1, r.2)

/-- Split a string at every character satisfying `sep` (like `str.split` on one char). -/
def splitBy (sep : Char → Bool) (s : String) : List String :=
  let r := splitCharsAux sep s.data
  (r.1 :: r.2).map String.mk

/-- Mantissa of a Python float literal: `d`, `d.f`, `.f` or `d.` with
decimal digits, as the exact rational `n / 10 ^ |f|`. -/
def parseMant (m : String) : Option ℚ :=
  match splitBy (fun c => c == '.') m with
  | [d] => (strToNat d).map (fun n => mkRat (Int.ofNat n) 1)
  | [d, f] =>
    if d.data.all Char.isDigit ∧ f.data.all Char.isDigit then
      match strToNat (d ++ f) with
      | some n => some (mkRat (Int.ofNat n) (10 ^ f.length))
      | none => none
    else none
  | _ => none

/-- Exponent of a Python float literal: optional sign then digits, no whitespace. -/
def parseExp (e : String) : Option Int :=
  let sign : Int := if e.data.take 1 = ['-'] then -1 else 1
  let mag := if e.data.take 1 = ['-'] ∨ e.data.take 1 = ['+'] then String.mk (e.data.drop 1) else e
  match strToNat mag with
  | some n => some (sign * n)
  | none => none

/-- Scale a rational by `10 ^ ex` for an integer exponent `ex`. -/
def scalePow10 (q : ℚ) (ex : Int) : ℚ :=
  if 0 ≤ ex then mkRat (q.num * (10 : Int) ^ ex.toNat) q.den
  else mkRat q.num (q.den * 10 ^ (-ex).toNat)

/-- Python `float(s)` as an exact rational: strip, optional sign, mantissa,
optional `e`/`E` exponent.  (`inf`, `nan`, Unicode digits and `_` are not
modelled; CPython additionally rounds the value to the nearest IEEE double,
which the exact-rational model deliberately omits.) -/
def pyFloat (s : String) : Option ℚ :=
  let t := pyStrip s
  let isNeg : Bool := t.data.take 1 = ['-']
  let mag := if t.data.take 1 = ['-'] ∨ t.data.take 1 = ['+'] then String.mk (t.data.drop 1) else t
  match splitBy (fun c => c == 'e' || c == 'E') mag with
  | [m] => (parseMant m).map (fun q => if isNeg then -q else q)
  | [m, e] =>
    match parseMant m, parseExp e with
    | some q, some ex => some (if isNeg then -(scalePow10 q ex) else scalePow10 q ex)
    | _, _ => none
  | _ => none

/-- Python list indexing `xs[i]` for `int` i: non-negative indexes from the
front, negative indexes from the back, `none` = `IndexError`. -/
def pyListGet (xs : List String) (i : Int) : Option String :=
  if 0 ≤ i then xs.get? i.toNat
  else if 0 ≤ i + xs.length then xs.get? (i + (xs.length : Int)).toNat
  else none

/-- Replace every (non-overlapping, leftmost-first) occurrence of `pat`,
driven by a character-count fuel. -/
def replaceLoop (pat repl : List Char) : Nat → List Char → List Char
  | 0, l => l
  | _ + 1, [] => []
  | fuel + 1, c :: rest =>
    if pat.isPrefixOf (c :: rest) then
      repl ++ replaceLoop pat repl fuel (List.drop pat.length (c :: rest))
    else c :: replaceLoop pat repl fuel rest

/-- Python `s.replace(pat, repl)` for a non-empty pattern. -/
def pyReplace (s pat repl : String) : String :=
  String.mk (replaceLoop pat.data repl.data (s.data.length + 1) s.data)

/-- Python `s.lower()` restricted to ASCII (the only characters the script
searches for are ASCII letters, and no non-ASCII character lowercases to one). -/
def lowerStr (s : String) : String := String.mk (s.data.map Char.toLower)

/-! ## Calendar arithmetic (`datetime` and `timedelta`)

`datetime` instants are microseconds from 0001-01-01T00:00:00 in the
proleptic Gregorian calendar; `datetime` supports exactly the years
1..9999, and `base + timedelta(days=serial)` raises `OverflowError`
outside that range. -/

/-- Day number (0 = 0001-01-01) to `(year, month, day)` in the proleptic
Gregorian calendar (the standard era-based conversion). -/
def civilFromDays (z : Nat) : Nat × Nat × Nat :=
  let n := z + 306
  let era := n / 146097
  let doe := n % 146097
  let yoe := (doe - doe / 1460 + doe / 36524 - doe / 146096) / 365
  let doy := doe - (365 * yoe + yoe / 4 - yoe / 100)
  let mp := (5 * doy + 2) / 153
  let d := doy - (153 * mp + 2) / 5 + 1
  let m := if mp < 10 then mp + 3 else mp - 9
  let y := yoe + era * 400 + (if m ≤ 2 then 1 else 0)
  (y, m, d)

/-- Zero-pad to two digits (`strftime` `%m`, `%d`, `%H`, `%M`, `%S`). -/
def pad2 (n : Nat) : String := if n < 10 then "0" ++ toString n else toString n

/-- Zero-pad to four digits (`strftime` `%Y`; sub-1000 years are platform
dependent in CPython and modelled as padded). -/
def pad4 (n : Nat) : String :=
  if n < 10 then "000" ++ toString n
  else if n < 100 then "00" ++ toString n
  else if n < 1000 then "0" ++ toString n
  else toString n

/-- Microseconds in a day. -/
def usecPerDay : Int := 86400000000

/-- Instant of `datetime(1899, 12, 30)`, the Excel epoch used by the script:
its 0-based ordinal is 693593. -/
def epochUsec : Int := 693593 * 86400000000

/-- Last representable instant, `datetime(9999, 12, 31, 23, 59, 59, 999999)`. -/
def maxUsec : Int := 3652058 * 86400000000 + 86399999999

/-- Round to the nearest integer, ties to even — the rounding `timedelta`
applies when converting a fractional day count to whole microseconds.
Computed on the numerator and denominator directly: with `f = ⌊q⌋` the
fractional part is `(q.num - f * q.den) / q.den`, and comparing it with
`1/2` is comparing its doubled numerator with the denominator. -/
def roundHalfEven (q : ℚ) : Int :=
  let f := Int.fdiv q.num q.den
  let r2 := 2 * (q.num - f * q.den)
  if r2 < (q.den : Int) then f
  else if (q.den : Int) < r2 then f + 1
  else if f % 2 = 0 then f else f + 1

/-- Whole microseconds of `timedelta(days = q)`: the day count scaled to
microseconds exactly, then rounded half-to-even. -/
def usecOfDays (q : ℚ) : Int := roundHalfEven (mkRat (q.num * 86400000000) q.den)

/-- Format the date part of an instant (`%Y-%m-%d`) from its day number. -/
def fmtYmd (day : Nat) : String :=
  let ymd := civilFromDays day
  pad4 ymd.1 ++ "-" ++ pad2 ymd.2.1 ++ "-" ++ pad2 ymd.2.2

/-- Format the time of day (`%H:%M:%S`) from microseconds within the day
(`strftime` truncates microseconds). -/
def fmtHms (rem : Nat) : String :=
  pad2 (rem / 3600000000) ++ ":" ++ pad2 (rem % 3600000000 / 60000000) ++ ":" ++
    pad2 (rem % 60000000 / 1000000)

/-- Model of `_excel_serial_to_iso`: parse the raw text as a float serial,
add that many days to `datetime(1899, 12, 30)`, and format the result —
`%Y-%m-%d` when the time of day is exactly midnight, `%Y-%m-%d %H:%M:%S`
otherwise.  `none` = the Python function raises (`ValueError` from
`float`, or `OverflowError` when the instant leaves the `datetime` range). -/
def excel_serial_to_iso (value : String) : Option String :=
  match pyFloat value with
  | none => none
  | some serial =>
    if 0 ≤ epochUsec + usecOfDays serial ∧
        epochUsec + usecOfDays serial ≤ maxUsec then
      if (epochUsec + usecOfDays serial).toNat % 86400000000 = 0 then
        some (fmtYmd ((epochUsec + usecOfDays serial).toNat / 86400000000))
      else
        some (fmtYmd ((epochUsec + usecOfDays serial).toNat / 86400000000) ++
          " " ++ fmtHms ((epochUsec + usecOfDays serial).toNat % 86400000000))
    else none

/-! ## Data model of the parsed archive

An `Archive` is the zip container seen through the parts the script
reads: each `Option` field is `some` exactly when the corresponding
entry is in `zf.namelist()` (and then holds its parsed XML), and the
worksheet association list plays the role of the remaining entries.
XML attributes are kept as the raw strings `ElementTree` delivers;
`attrib.get(k, default)` is modelled by `Option.getD`. -/

/-- Cell node `<c>`: `t` and `s` attributes, the inline-string child
`<is>` (as the `t.text` contents of its text runs, document order), and
the value child `<v>` (`some none` = a `<v>` with no text). -/
structure Cell where
  t : Option String
  s : Option String
  inl : Option (List (Option String))
  v : Option (Option String)
deriving DecidableEq

/-- Row node `<row>` with its `<c>` children in document order. -/
structure Row where
  cells : List Cell
deriving DecidableEq

/-- Worksheet part: the `sheetData/row` nodes in document order. -/
structure SheetPart where
  rows : List Row
deriving DecidableEq

/-- Relationship node: `Id` is accessed as `rel.attrib["Id"]` (required),
`Target` through `attrib.get("Target", "")`. -/
structure RelEntry where
  Id : String
  Target : Option String
deriving DecidableEq

/-- Declared sheet node of `xl/workbook.xml`: `name` and `r:id` attributes. -/
structure Sheet where
  name : Option String
  rid : Option String
deriving DecidableEq

/-- Custom numbering format `<numFmt>`: `numFmtId` and `formatCode` attributes. -/
structure NumFmt where
  numFmtId : Option String
  formatCode : Option String
deriving DecidableEq

/-- Cell format record `<xf>` of `cellXfs`; the script reads only its
`numFmtId` attribute, so the style index of an `<xf>` is nothing but its
position in the sequence. -/
structure Xf where
  numFmtId : Option String
deriving DecidableEq

/-- Styles part `xl/styles.xml`: the optional `numFmts` and `cellXfs` nodes. -/
structure StylesPart where
  numFmts : Option (List NumFmt)
  cellXfs : Option (List Xf)
deriving DecidableEq

/-- The archive as the script reads it.  `sst` is the parsed
`xl/sharedStrings.xml` (a list of `<si>` items, each a list of text
runs), `styles` the parsed `xl/styles.xml`, `worksheets` the worksheet
entries keyed by archive path. -/
structure Archive where
  workbook : List Sheet
  rels : List RelEntry
  sst : Option (List (List (Option String)))
  styles : Option StylesPart
  worksheets : List (String × SheetPart)
deriving DecidableEq

/-- One decoded record: a Python dict as an insertion-ordered association
list with unique keys. -/
abbrev Record := List (String × String)

/-! ## The script's functions -/

/-- Model of `_text_from_si`: concatenate the text of all `<t>` descendants,
a missing `text` contributing `""`. -/
def text_from_si (runs : List (Option String)) : String :=
  String.join (runs.map (fun t => t.getD ""))

/-- Model of `_is_builtin_date_numfmt`. -/
def is_builtin_date_numfmt (id : Int) : Bool :=
  [(14 : Int), 15, 16, 17, 18, 19, 20, 21, 22, 45, 46, 47].contains id

/-- Model of `_looks_like_date_format`: the lowercased format code contains
one of the characters `y m d h s`. -/
def looks_like_date_format (code : String) : Bool :=
  (lowerStr code).data.any (fun c => ['y', 'm', 'd', 'h', 's'].contains c)

/-- Model of `_load_shared_strings`: absent part → empty table, otherwise
one decoded string per `<si>` item in document order. -/
def load_shared_strings (sst : Option (List (List (Option String)))) : List String :=
  match sst with
  | none => []
  | some items => items.map text_from_si

/-- Python dict update `d[k] = v`: overwrite in place when the key exists,
append otherwise. -/
def dictInsert {α : Type} (d : List (String × α)) (k : String) (v : α) : List (String × α) :=
  if d.any (fun p => p.1 == k) then d.map (fun p => if p.1 == k then (k, v) else p)
  else d ++ [(k, v)]

/-- Lookup in the `custom_numfmts` dict: the last binding of an id wins. -/
def customLookup (customs : List (Int × String)) (id : Int) : Option String :=
  (customs.reverse.find? (fun p => p.1 == id)).map (fun p => p.2)

/-- The `numFmts` pass of `_load_date_styles`: parse each `numFmtId`
attribute (default `"0"`); `none` = `int()` raised. -/
def customFmts (nfs : List NumFmt) : Option (List (Int × String)) :=
  nfs.mapM (fun n => (pyInt (n.numFmtId.getD "0")).map (fun i => (i, n.formatCode.getD "")))

/-- The `cellXfs` loop of `_load_date_styles`: `i` is the running style
index, `acc` the set built so far (as a list of the indices added, each
added at most once since indices are strictly increasing). -/
def dateStylesLoop (customs : List (Int × String)) : List Xf → Nat → List Int → Option (List Int)
  | [], _, acc => some acc
  | xf :: rest, i, acc =>
    match pyInt (xf.numFmtId.getD "0") with
    | none => none
    | some id =>
      if is_builtin_date_numfmt id then dateStylesLoop customs rest (i + 1) (acc ++ [(i : Int)])
      else
        match customLookup customs id with
        | some code =>
          if looks_like_date_format code then dateStylesLoop customs rest (i + 1) (acc ++ [(i : Int)])
          else dateStylesLoop customs rest (i + 1) acc
        | none => dateStylesLoop customs rest (i + 1) acc

/-- Model of `_load_date_styles`: absent styles part → empty set; then the
custom `numFmts` are read first, and a missing `cellXfs` node yields the
empty set. -/
def load_date_styles (styles : Option StylesPart) : Option (List Int) :=
  match styles with
  | none => some []
  | some sp =>
    match customFmts (sp.numFmts.getD []) with
    | none => none
    | some customs =>
      match sp.cellXfs with
      | none => some []
      | some xfs => dateStylesLoop customs xfs 0 []

/-- Lookup in the `rel_map` dict built from the relationships part
(last binding of an `Id` wins; the stored value is `attrib.get("Target", "")`). -/
def relLookup (rels : List RelEntry) (rid : String) : Option String :=
  ((rels.reverse.find? (fun r => r.Id == rid)).map (fun r => r.Target.getD ""))

/-- Path components as `PurePosixPath` keeps them: empty and `.` segments
dropped, `..` preserved. -/
def pathParts (s : String) : List String :=
  (splitBy (fun c => c == '/') s).filter (fun p => p != "" && p != ".")

/-- Join a list of strings with a separator. -/
def joinSep (sep : String) : List String → String
  | [] => ""
  | [x] => x
  | x :: rest => x ++ sep ++ joinSep sep rest

/-- Model of the target normalization in `_sheet_targets`:
`str(PurePosixPath("xl") / PurePosixPath(target))` followed by
`.replace("xl/../", "")`.  An absolute target discards the `xl` prefix,
as `PurePosixPath` join does. -/
def normalizeTarget (target : String) : String :=
  let joined :=
    if target.data.take 1 = ['/'] then "/" ++ joinSep "/" (pathParts target)
    else joinSep "/" ("xl" :: pathParts target)
  pyReplace joined "xl/../" ""

/-- Model of `_sheet_targets`: resolve each declared sheet's `r:id`
through the relationship map; a sheet whose id resolves to no target (or
to an empty one) is dropped silently, all others keep document order. -/
def sheet_targets (wb : List Sheet) (rels : List RelEntry) : List (String × String) :=
  wb.filterMap (fun sh =>
    if (relLookup rels (sh.rid.getD "")).getD "" == "" then none
    else some (sh.name.getD "", normalizeTarget ((relLookup rels (sh.rid.getD "")).getD "")))

/-- Model of `_cell_value`; `none` = the Python function raises (only the
`int()` on the style attribute can, everything else is caught or total).
Branch order follows the source: style attribute first, then inline
strings, then the `<v>` node, shared strings, date styles, raw text. -/
def cell_value (c : Cell) (shared : List String) (dates : List Int) : Option String :=
  match pyInt (c.s.getD "0") with
  | none => none
  | some styleIdx =>
    if c.t == some "inlineStr" then
      match c.inl with
      | none => some ""
      | some runs => some (text_from_si runs)
    else
      match c.v with
      | none => some ""
      | some none => some ""
      | some (some raw) =>
        if c.t == some "s" then
          match pyInt raw with
          | none => some ""
          | some ix => some ((pyListGet shared ix).getD "")
        else if dates.contains styleIdx then
          some ((excel_serial_to_iso raw).getD raw)
        else some raw

/-- Resolve and strip every cell of a row, in column order (the
`[_cell_value(c, ...).strip() for c in row.findall("main:c")]` comprehensions). -/
def resolveRow (shared : List String) (dates : List Int) (r : Row) : Option (List String) :=
  (r.cells.mapM (fun c => cell_value c shared dates)).map (fun vs => vs.map pyStrip)

/-- The record-building loop of `workbook_to_dict`: `for idx, header in
enumerate(normalized_headers): row_obj[header] = values[idx] if idx <
len(values) else ""`, with `i` the running `idx` and `d` the dict so far. -/
def recordLoop (values : List String) : List String → Nat → Record → Record
  | [], _, d => d
  | h :: rest, i, d => recordLoop values rest (i + 1) (dictInsert d h (values.getD i ""))

/-- The data-row loop of `workbook_to_dict`: a row all of whose stripped
values are empty is skipped, every other row appends one record. -/
def rowsLoop (shared : List String) (dates : List Int) (nh : List String) :
    List Row → List Record → Option (List Record)
  | [], acc => some acc
  | r :: rest, acc =>
    match resolveRow shared dates r with
    | none => none
    | some values =>
      if values.all (fun v => v == "") then rowsLoop shared dates nh rest acc
      else rowsLoop shared dates nh rest (acc ++ [recordLoop values nh 0 []])

/-- Per-sheet assembly of `workbook_to_dict`: no rows → empty result;
otherwise the first row gives the headers, empty header texts are
dropped from the key list, and the remaining rows are folded. -/
def assembleSheet (shared : List String) (dates : List Int) (part : SheetPart) :
    Option (List Record) :=
  match part.rows with
  | [] => some []
  | hrow :: drows =>
    match resolveRow shared dates hrow with
    | none => none
    | some headers => rowsLoop shared dates (headers.filter (fun h => h != "")) drows []

/-- The sheet loop of `workbook_to_dict`: a resolved target that is not an
entry of the archive is skipped without creating a key; otherwise the
sheet's records are assembled and stored under the sheet name. -/
def sheetsLoop (ws : List (String × SheetPart)) (shared : List String) (dates : List Int) :
    List (String × String) → List (String × List Record) → Option (List (String × List Record))
  | [], sheets => some sheets
  | (name, target) :: rest, sheets =>
    match ws.lookup target with
    | none => sheetsLoop ws shared dates rest sheets
    | some part =>
      match assembleSheet shared dates part with
      | none => none
      | some recs => sheetsLoop ws shared dates rest (dictInsert sheets name recs)

/-- Model of `workbook_to_dict`: shared strings, then date styles, then
one pass over the resolved sheet references. -/
def workbook_to_dict (a : Archive) : Option (List (String × List Record)) :=
  let shared := load_shared_strings a.sst
  match load_date_styles a.styles with
  | none => none
  | some dates => sheetsLoop a.worksheets shared dates (sheet_targets a.workbook a.rels) []

/-! ## Example cells, sheets and archives used by concrete theorems -/

/-- Cell with no type, no style, no inline node and the given raw text. -/
def rawCell (s : String) : Cell := ⟨none, none, none, some (some s)⟩

/-- Cell with no attributes and no value node at all (resolves to `""`). -/
def blankCell : Cell := ⟨none, none, none, none⟩

/-- Conversion of the serial exactly as the specification words it, with
no representable-range restriction: the epoch 1899-12-30 plus the serial
days, formatted `%Y-%m-%d` at midnight and `%Y-%m-%d %H:%M:%S`
otherwise.  Used only to compare the specified value with the
implementation's behavior outside the `datetime` range. -/
def claimedSerialToIso (serial : ℚ) : String :=
  if (epochUsec + usecOfDays serial).toNat % 86400000000 = 0 then
    fmtYmd ((epochUsec + usecOfDays serial).toNat / 86400000000)
  else
    fmtYmd ((epochUsec + usecOfDays serial).toNat / 86400000000) ++ " " ++
      fmtHms ((epochUsec + usecOfDays serial).toNat % 86400000000)

/-- The sheet of the spec's alignment example: header row resolving to
`["Name", "", "Age"]`, one data row resolving to `["Alice", "skip", "30"]`. -/
def sheetNameAge : SheetPart :=
  ⟨[⟨[rawCell "Name", blankCell, rawCell "Age"]⟩,
    ⟨[rawCell "Alice", rawCell "skip", rawCell "30"]⟩]⟩

/-- Shared-string cell carrying the raw index `-1`. -/
def cellNegIdx : Cell := ⟨some "s", none, none, some (some "-1")⟩

/-- Date-styled numeric cell whose serial leaves the `datetime` range. -/
def cellOverflow : Cell := ⟨none, none, none, some (some "5000000")⟩

/-- Archive declaring one sheet `S` whose resolved target
`xl/worksheets/sheet1.xml` is not an entry of the archive. -/
def archMissingPart : Archive :=
  ⟨[⟨some "S", some "rid1"⟩], [⟨"rid1", some "worksheets/sheet1.xml"⟩], none, none, []⟩

/-- Empty archive (no sheets, no parts). -/
def archTrivial : Archive := ⟨[], [], none, none, []⟩

/-! ## Dictionary lemmas -/

theorem beq_false_symm {a b : String} (h : (a == b) = false) : (b == a) = false := by
  rw [beq_eq_false_iff_ne] at h ⊢
  exact fun hk => h hk.symm

theorem lookup_map_replace {α : Type} (k : String) (v : α) :
    ∀ d : List (String × α), d.any (fun p => p.1 == k) = true →
      List.lookup k (d.map (fun p => if p.1 == k then (k, v) else p)) = some v := by
  intro d
  induction d with
  | nil => intro h; simp at h
  | cons p rest ih =>
    rcases p with ⟨pk, pv⟩
    intro h
    rw [List.map_cons]
    by_cases hpk : (pk == k) = true
    · rw [if_pos hpk]
      simp [List.lookup]
    · have hpk' : (pk == k) = false := Bool.eq_false_iff.mpr hpk
      rw [if_neg hpk]
      rw [List.any_cons, Bool.or_eq_true] at h
      have hr : rest.any (fun p => p.1 == k) = true := by
        rcases h with h | h
        · exact absurd h hpk
        · exact h
      have hne : (k == pk) = false := beq_false_symm hpk'
      simp only [List.lookup, hne]
      exact ih hr

theorem lookup_append_of_absent {α : Type} (k : String) (l : List (String × α)) :
    ∀ d : List (String × α), d.any (fun p => p.1 == k) = false →
      List.lookup k (d ++ l) = List.lookup k l := by
  intro d
  induction d with
  | nil => intro _; simp
  | cons p rest ih =>
    rcases p with ⟨pk, pv⟩
    intro h
    rw [List.any_cons, Bool.or_eq_false_iff] at h
    have hne : (k == pk) = false := beq_false_symm h.1
    rw [List.cons_append]
    simp only [List.lookup, hne]
    exact ih h.2

theorem dictInsert_lookup_self {α : Type} (d : List (String × α)) (k : String) (v : α) :
    List.lookup k (dictInsert d k v) = some v := by
  unfold dictInsert
  split
  next h => exact lookup_map_replace k v d h
  next h =>
    rw [lookup_append_of_absent k _ d (Bool.eq_false_iff.mpr h)]
    simp [List.lookup]

theorem lookup_map_replace_ne {α : Type} (k k2 : String) (v : α) (hne : k2 ≠ k) :
    ∀ d : List (String × α),
      List.lookup k2 (d.map (fun p => if p.1 == k then (k, v) else p)) = List.lookup k2 d := by
  intro d
  induction d with
  | nil => simp
  | cons p rest ih =>
    rcases p with ⟨pk, pv⟩
    rw [List.map_cons]
    by_cases hpk : (pk == k) = true
    · have hk : pk = k := beq_iff_eq.mp hpk
      have h2 : (k2 == k) = false := beq_eq_false_iff_ne.mpr hne
      rw [if_pos hpk]
      subst hk
      simp only [List.lookup, h2]
      exact ih
    · rw [if_neg hpk]
      simp only [List.lookup]
      cases hk2 : k2 == pk
      · exact ih
      · rfl

theorem lookup_append_single_ne {α : Type} (k k2 : String) (v : α) (hne : k2 ≠ k) :
    ∀ d : List (String × α), List.lookup k2 (d ++ [(k, v)]) = List.lookup k2 d := by
  intro d
  induction d with
  | nil => simp [List.lookup, beq_eq_false_iff_ne.mpr hne]
  | cons p rest ih =>
    rcases p with ⟨pk, pv⟩
    rw [List.cons_append]
    simp only [List.lookup]
    cases hk2 : k2 == pk
    · exact ih
    · rfl

theorem dictInsert_lookup_ne {α : Type} (k k2 : String) (v : α) (hne : k2 ≠ k)
    (d : List (String × α)) : List.lookup k2 (dictInsert d k v) = List.lookup k2 d := by
  unfold dictInsert
  split
  next _ => exact lookup_map_replace_ne k k2 v hne d
  next _ => exact lookup_append_single_ne k k2 v hne d

theorem dictInsert_keys {α : Type} (d : List (String × α)) (k : String) (v : α) :
    (dictInsert d k v).map Prod.fst =
      if d.any (fun p => p.1 == k) then d.map Prod.fst else d.map Prod.fst ++ [k] := by
  unfold dictInsert
  split
  next h =>
    rw [List.map_map]
    apply List.map_congr_left
    intro p _
    by_cases hp : p.1 = k
    · simp [hp]
    · simp [hp]
  next h =>
    rw [List.map_append]
    rfl

theorem dictInsert_keys_mem {α : Type} (d : List (String × α)) (k k2 : String) (v : α) :
    k2 ∈ (dictInsert d k v).map Prod.fst ↔ k2 = k ∨ k2 ∈ d.map Prod.fst := by
  rw [dictInsert_keys]
  split
  next h =>
    constructor
    · exact fun hm => Or.inr hm
    · rintro (rfl | hm)
      · rw [List.any_eq_true] at h
        rcases h with ⟨p, hp, hpk⟩
        rw [beq_iff_eq] at hpk
        exact hpk ▸ List.mem_map_of_mem Prod.fst hp
      · exact hm
  next _ =>
    rw [List.mem_append, List.mem_singleton]
    tauto

theorem dictInsert_keys_nodup {α : Type} (d : List (String × α)) (k : String) (v : α)
    (h : (d.map Prod.fst).Nodup) : ((dictInsert d k v).map Prod.fst).Nodup := by
  rw [dictInsert_keys]
  split
  next _ => exact h
  next hany =>
    have hk : k ∉ d.map Prod.fst := by
      intro hm
      rw [List.mem_map] at hm
      rcases hm with ⟨p, hp, hpk⟩
      have : d.any (fun p => p.1 == k) = true :=
        List.any_eq_true.mpr ⟨p, hp, beq_iff_eq.mpr hpk⟩
      exact hany this
    rw [List.nodup_append]
    refine ⟨h, List.nodup_singleton k, ?_⟩
    intro a ha hb
    rw [List.mem_singleton] at hb
    subst hb
    exact hk ha

/-! ## Record-loop lemmas (towards C10) -/

/-- Index of the last occurrence of `k` in a list, if any. -/
def lastIdxFrom (k : String) : List String → Option Nat
  | [] => none
  | h :: t =>
    match lastIdxFrom k t with
    | some j => some (j + 1)
    | none => if h == k then some 0 else none

theorem lastIdxFrom_none_notMem (k : String) :
    ∀ nh : List String, lastIdxFrom k nh = none → k ∉ nh := by
  intro nh
  induction nh with
  | nil => intro _; simp
  | cons h t ih =>
    intro hl
    unfold lastIdxFrom at hl
    cases hlt : lastIdxFrom k t with
    | some j => rw [hlt] at hl; simp at hl
    | none =>
      rw [hlt] at hl
      by_cases hk : (h == k) = true
      · rw [if_pos hk] at hl; simp at hl
      · rw [if_neg hk] at hl
        intro hmem
        rcases List.mem_cons.mp hmem with rfl | hmem
        · exact hk (beq_iff_eq.mpr rfl)
        · exact ih hlt hmem

theorem recordLoop_lookup_none (values : List String) (k : String) :
    ∀ nh (i : Nat) (d : Record), lastIdxFrom k nh = none →
      List.lookup k (recordLoop values nh i d) = List.lookup k d := by
  intro nh
  induction nh with
  | nil => intro i d _; rfl
  | cons h t ih =>
    intro i d hl
    unfold lastIdxFrom at hl
    cases hlt : lastIdxFrom k t with
    | some j => rw [hlt] at hl; simp at hl
    | none =>
      rw [hlt] at hl
      by_cases hk : (h == k) = true
      · rw [if_pos hk] at hl; simp at hl
      · rw [if_neg hk] at hl
        show List.lookup k (recordLoop values t (i + 1) (dictInsert d h (values.getD i ""))) = _
        rw [ih (i + 1) _ hlt]
        exact dictInsert_lookup_ne h k _ (fun he => hk (beq_iff_eq.mpr he.symm)) d

theorem recordLoop_lookup_last (values : List String) (k : String) :
    ∀ nh (i : Nat) (d : Record) (j : Nat), lastIdxFrom k nh = some j →
      List.lookup k (recordLoop values nh i d) = some (values.getD (i + j) "") := by
  intro nh
  induction nh with
  | nil => intro i d j hl; simp [lastIdxFrom] at hl
  | cons h t ih =>
    intro i d j hl
    unfold lastIdxFrom at hl
    cases hlt : lastIdxFrom k t with
    | some j2 =>
      rw [hlt] at hl
      simp only [Option.some.injEq] at hl
      show List.lookup k (recordLoop values t (i + 1) (dictInsert d h (values.getD i ""))) = _
      rw [ih (i + 1) _ j2 hlt, ← hl]
      congr 2
      omega
    | none =>
      rw [hlt] at hl
      by_cases hk : (h == k) = true
      · rw [if_pos hk] at hl
        simp only [Option.some.injEq] at hl
        have hkeq : h = k := beq_iff_eq.mp hk
        show List.lookup k (recordLoop values t (i + 1) (dictInsert d h (values.getD i ""))) = _
        rw [recordLoop_lookup_none values k t (i + 1) _ hlt, hkeq,
          dictInsert_lookup_self d k (values.getD i ""), ← hl]
        simp
      · rw [if_neg hk] at hl; simp at hl

theorem recordLoop_keys_mem (values : List String) (k2 : String) :
    ∀ nh (i : Nat) (d : Record),
      k2 ∈ (recordLoop values nh i d).map Prod.fst ↔ k2 ∈ nh ∨ k2 ∈ d.map Prod.fst := by
  intro nh
  induction nh with
  | nil => intro i d; simp [recordLoop]
  | cons h t ih =>
    intro i d
    show k2 ∈ (recordLoop values t (i + 1) (dictInsert d h (values.getD i ""))).map Prod.fst ↔ _
    rw [ih (i + 1), dictInsert_keys_mem, List.mem_cons]
    tauto

theorem recordLoop_keys_nodup (values : List String) :
    ∀ nh (i : Nat) (d : Record), (d.map Prod.fst).Nodup →
      ((recordLoop values nh i d).map Prod.fst).Nodup := by
  intro nh
  induction nh with
  | nil => intro i d h; exact h
  | cons h t ih =>
    intro i d hd
    exact ih (i + 1) _ (dictInsert_keys_nodup d h _ hd)

theorem lastIdxFrom_get (k : String) :
    ∀ (nh : List String) (j : Nat), lastIdxFrom k nh = some j → nh.get? j = some k := by
  intro nh
  induction nh with
  | nil => intro j hl; simp [lastIdxFrom] at hl
  | cons h t ih =>
    intro j hl
    unfold lastIdxFrom at hl
    cases hlt : lastIdxFrom k t with
    | some j2 =>
      rw [hlt] at hl
      simp only [Option.some.injEq] at hl
      rw [← hl]
      simpa using ih j2 hlt
    | none =>
      rw [hlt] at hl
      by_cases hk : (h == k) = true
      · rw [if_pos hk] at hl
        simp only [Option.some.injEq] at hl
        rw [← hl]
        simp [beq_iff_eq.mp hk]
      · rw [if_neg hk] at hl; simp at hl

theorem lastIdxFrom_maximal (k : String) :
    ∀ (nh : List String) (j j2 : Nat), lastIdxFrom k nh = some j →
      nh.get? j2 = some k → j2 ≤ j := by
  intro nh
  induction nh with
  | nil => intro j j2 hl _; simp [lastIdxFrom] at hl
  | cons h t ih =>
    intro j j2 hl hg
    unfold lastIdxFrom at hl
    cases hlt : lastIdxFrom k t with
    | some jt =>
      rw [hlt] at hl
      simp only [Option.some.injEq] at hl
      cases j2 with
      | zero => omega
      | succ m =>
        have : m ≤ jt := ih jt m hlt (by simpa using hg)
        omega
    | none =>
      rw [hlt] at hl
      by_cases hk : (h == k) = true
      · rw [if_pos hk] at hl
        simp only [Option.some.injEq] at hl
        cases j2 with
        | zero => omega
        | succ m =>
          exfalso
          have hmem : k ∈ t := List.get?_mem (by simpa using hg)
          exact lastIdxFrom_none_notMem k t hlt hmem
      · rw [if_neg hk] at hl; simp at hl

/-! ## Cell-value characterizations -/

theorem get?_getD (l : List String) (n : Nat) (d : String) :
    (l.get? n).getD d = l.getD n d := by
  induction l generalizing n with
  | nil => cases n <;> rfl
  | cons a t ih => cases n with
    | zero => rfl
    | succ m => exact ih m

theorem pyListGet_nil (i : Int) : pyListGet [] i = none := by
  unfold pyListGet
  by_cases h1 : (0 : Int) ≤ i
  · rw [if_pos h1]; rfl
  · rw [if_neg h1]
    by_cases h2 : (0 : Int) ≤ i + ([] : List String).length
    · rw [if_pos h2]; rfl
    · rw [if_neg h2]

theorem cell_value_shared (c : Cell) (shared : List String) (dates : List Int) (i : Int)
    (raw : String) (hi : pyInt (c.s.getD "0") = some i) (ht : c.t = some "s")
    (hv : c.v = some (some raw)) :
    cell_value c shared dates =
      some (((pyInt raw).bind (fun ix => pyListGet shared ix)).getD "") := by
  unfold cell_value
  rw [hi, ht, hv]
  cases hx : pyInt raw with
  | none =>
    simp [hx, show ((some "s" : Option String) == some "inlineStr") = false from by decide,
      show ((some "s" : Option String) == some "s") = true from by decide]
  | some ix =>
    simp [hx, show ((some "s" : Option String) == some "inlineStr") = false from by decide,
      show ((some "s" : Option String) == some "s") = true from by decide]

/-! ## Claim theorems -/

/-- C1 (code bug, failing input): on the sheet whose header row resolves to
`["Name", "", "Age"]` and whose data row resolves to
`["Alice", "skip", "30"]`, the script emits `{"Name": "Alice", "Age":
"skip"}` — the value is taken at the header's position in the compacted
header list, not at the header's original column position, so the record
claimed by the specification (`{"Name": "Alice", "Age": "30"}`) is not
produced. -/
theorem c1_header_misalignment :
    resolveRow [] [] ⟨[rawCell "Name", blankCell, rawCell "Age"]⟩ = some ["Name", "", "Age"]
    ∧ resolveRow [] [] ⟨[rawCell "Alice", rawCell "skip", rawCell "30"]⟩ =
        some ["Alice", "skip", "30"]
    ∧ assembleSheet [] [] sheetNameAge = some [[("Name", "Alice"), ("Age", "skip")]]
    ∧ [[("Name", "Alice"), ("Age", "skip")]] ≠ [[("Name", "Alice"), ("Age", "30")]] := by
  refine ⟨by decide, by decide, by decide, by decide⟩

/-- C9: workbook decoding is a pure function of the archive contents —
two decodes of equal archives yield equal results. -/
theorem c9_deterministic (a b : Archive) (h : a = b) :
    workbook_to_dict a = workbook_to_dict b := by rw [h]

theorem c9_deterministic_wit :
    workbook_to_dict archTrivial = workbook_to_dict archTrivial :=
  c9_deterministic archTrivial archTrivial rfl

/-- C10: when the retained header list contains duplicate texts, the
emitted record (built by the header loop) carries a single entry per
distinct header text, its keys are exactly the retained header texts, and
the value stored under a duplicated text is the data value associated
with the last occurrence of that text in the retained header list
(`lastIdxFrom` returns precisely that occurrence, as the last two
conjuncts state). -/
theorem c10_duplicate_headers (nh values : List String) (k : String) (j : Nat)
    (h : lastIdxFrom k nh = some j) :
    List.lookup k (recordLoop values nh 0 []) = some (values.getD j "")
    ∧ ((recordLoop values nh 0 []).map Prod.fst).Nodup
    ∧ (∀ k2, k2 ∈ (recordLoop values nh 0 []).map Prod.fst ↔ k2 ∈ nh)
    ∧ nh.get? j = some k
    ∧ ∀ j2, nh.get? j2 = some k → j2 ≤ j := by
  refine ⟨?_, ?_, ?_, lastIdxFrom_get k nh j h, fun j2 hg => lastIdxFrom_maximal k nh j j2 h hg⟩
  · simpa using recordLoop_lookup_last values k nh 0 [] j h
  · exact recordLoop_keys_nodup values nh 0 [] (by simp)
  · intro k2
    rw [recordLoop_keys_mem]
    simp

theorem c10_duplicate_headers_wit :
    List.lookup "A" (recordLoop ["1", "2", "3"] ["A", "B", "A"] 0 []) = some "3" :=
  ((c10_duplicate_headers ["A", "B", "A"] ["1", "2", "3"] "A" 2 (by decide)).1).trans (by decide)

/-- C8: an archive with no shared-strings part yields the empty string
table, and every shared-string-typed cell (whose style attribute parses,
which the resolver requires before reaching the shared-string branch)
resolves to the empty string against the empty table, whatever its raw
index value is — including a missing or text-free value node. -/
theorem c8_no_sst_empty :
    load_shared_strings none = []
    ∧ ∀ (c : Cell) (dates : List Int) (i : Int),
        pyInt (c.s.getD "0") = some i → c.t = some "s" →
        cell_value c [] dates = some "" := by
  refine ⟨rfl, ?_⟩
  intro c dates i hi ht
  rcases hc : c.v with _ | ov
  · unfold cell_value
    rw [hi, ht, hc]
    rfl
  · rcases ov with _ | raw
    · unfold cell_value
      rw [hi, ht, hc]
      rfl
    · rw [cell_value_shared c [] dates i raw hi ht hc]
      cases hx : pyInt raw with
      | none => simp [hx]
      | some ix => simp [hx, pyListGet_nil]

theorem c8_no_sst_empty_wit :
    cell_value ⟨some "s", none, none, some (some "99")⟩ [] [] = some "" :=
  (c8_no_sst_empty).2 ⟨some "s", none, none, some (some "99")⟩ [] 0 (by decide) rfl

/-- C3 (counterexample): a shared-string cell with raw index `-1` against
the one-element table `["a"]` resolves to `"a"` — Python's negative list
indexing reaches the last element — and not to the empty string the claim
requires for an index outside `0..n-1`. -/
theorem c3_shared_index_cex :
    cell_value cellNegIdx ["a"] [] = some "a"
    ∧ cell_value cellNegIdx ["a"] [] ≠ some "" := by
  refine ⟨by decide, by decide⟩

/-- C3 (amended): for a shared-string cell with a value node (and a
parsing style attribute, which the resolver reads first), resolution
never raises; a non-numeric raw value yields `""`; an index in `0..n-1`
yields the table entry at that position; an index in `-n..-1` yields the
entry at position `n + index` (Python negative indexing); any other index
yields `""`. -/
theorem c3_shared_index_semantics (c : Cell) (shared : List String) (dates : List Int)
    (i : Int) (raw : String) (hi : pyInt (c.s.getD "0") = some i) (ht : c.t = some "s")
    (hv : c.v = some (some raw)) :
    (cell_value c shared dates).isSome = true
    ∧ (pyInt raw = none → cell_value c shared dates = some "")
    ∧ (∀ ix : Int, pyInt raw = some ix → 0 ≤ ix → ix < shared.length →
        cell_value c shared dates = some (shared.getD ix.toNat ""))
    ∧ (∀ ix : Int, pyInt raw = some ix → ix < 0 → 0 ≤ ix + (shared.length : Int) →
        cell_value c shared dates = some (shared.getD (ix + (shared.length : Int)).toNat ""))
    ∧ (∀ ix : Int, pyInt raw = some ix →
        ((shared.length : Int) ≤ ix ∨ ix + (shared.length : Int) < 0) →
        cell_value c shared dates = some "") := by
  have key := cell_value_shared c shared dates i raw hi ht hv
  refine ⟨?_, ?_, ?_, ?_, ?_⟩
  · rw [key]; rfl
  · intro hn
    rw [key, hn]
    rfl
  · intro ix hx h0 hlt
    rw [key, hx]
    show some ((pyListGet shared ix).getD "") = _
    unfold pyListGet
    rw [if_pos h0, get?_getD]
  · intro ix hx hneg hge
    rw [key, hx]
    show some ((pyListGet shared ix).getD "") = _
    unfold pyListGet
    rw [if_neg (by omega : ¬ (0 : Int) ≤ ix), if_pos hge, get?_getD]
  · intro ix hx hout
    rw [key, hx]
    show some ((pyListGet shared ix).getD "") = _
    unfold pyListGet
    rcases hout with hbig | hsmall
    · rw [if_pos (by omega : (0 : Int) ≤ ix)]
      rw [List.get?_eq_none.mpr (by omega : shared.length ≤ ix.toNat)]
      rfl
    · rw [if_neg (by omega : ¬ (0 : Int) ≤ ix), if_neg (by omega : ¬ (0 : Int) ≤ ix + (shared.length : Int))]
      rfl

theorem c3_shared_index_semantics_wit :
    cell_value ⟨some "s", none, none, some (some "1")⟩ ["a", "b"] [] = some "b" :=
  (((c3_shared_index_semantics ⟨some "s", none, none, some (some "1")⟩ ["a", "b"] [] 0 "1"
    (by decide) rfl rfl).2.2.1) 1 (by decide) (by decide) (by decide)).trans (by decide)

/-! ## Date-serial characterizations (towards C4) -/

theorem excel_iso_none_parse (raw : String) (hn : pyFloat raw = none) :
    excel_serial_to_iso raw = none := by
  unfold excel_serial_to_iso
  rw [hn]

theorem excel_iso_out (raw : String) (q : ℚ) (hq : pyFloat raw = some q)
    (hout : epochUsec + usecOfDays q < 0 ∨
      maxUsec < epochUsec + usecOfDays q) :
    excel_serial_to_iso raw = none := by
  unfold excel_serial_to_iso
  simp only [hq]
  rw [if_neg (by rintro ⟨ha, hb⟩; rcases hout with h | h <;> omega)]

theorem excel_iso_in (raw : String) (q : ℚ) (hq : pyFloat raw = some q)
    (h0 : 0 ≤ epochUsec + usecOfDays q)
    (hmax : epochUsec + usecOfDays q ≤ maxUsec) :
    excel_serial_to_iso raw = some (claimedSerialToIso q) := by
  unfold excel_serial_to_iso claimedSerialToIso
  simp only [hq]
  rw [if_pos ⟨h0, hmax⟩]
  by_cases hrem : (epochUsec + usecOfDays q).toNat % 86400000000 = 0
  · rw [if_pos hrem, if_pos hrem]
  · rw [if_neg hrem, if_neg hrem]

theorem cell_value_dated (c : Cell) (shared : List String) (dates : List Int) (i : Int)
    (raw : String) (hi : pyInt (c.s.getD "0") = some i)
    (ht1 : c.t ≠ some "inlineStr") (ht2 : c.t ≠ some "s")
    (hv : c.v = some (some raw)) (hd : dates.contains i = true) :
    cell_value c shared dates = some ((excel_serial_to_iso raw).getD raw) := by
  have h1 : (c.t == some "inlineStr") = false := beq_eq_false_iff_ne.mpr ht1
  have h2 : (c.t == some "s") = false := beq_eq_false_iff_ne.mpr ht2
  have hmem : i ∈ dates := by simpa using hd
  unfold cell_value
  simp [hi, h1, h2, hv, hmem]

/-- C4 (counterexample): the serial `5000000` parses, and the claim then
demands the formatted calendar date `1899-12-30 + 5000000 days` (the value
of `claimedSerialToIso`, which is not the raw text); but the conversion
overflows the `datetime` range, the resolver catches the exception, and the
cell resolves to the raw text `"5000000"` unchanged. -/
theorem c4_date_serial_cex :
    cell_value cellOverflow [] [(0 : Int)] = some "5000000"
    ∧ pyFloat "5000000" = some (mkRat 5000000 1)
    ∧ claimedSerialToIso (mkRat 5000000 1) ≠ "5000000" := by
  refine ⟨by decide, by decide, by decide⟩

/-- C4 (amended): for a date-styled cell (numeric type, parsing style
attribute, style index in the date-style set) with a value node, the
resolver returns the serial conversion when it succeeds and the raw text
when it raises; a serial that does not parse falls back to the raw text;
a serial whose instant leaves the `datetime` range (years 1..9999) also
falls back to the raw text; a serial whose instant stays in range is
formatted from the epoch `1899-12-30T00:00:00` plus serial days —
`%Y-%m-%d` at exact midnight, `%Y-%m-%d %H:%M:%S` otherwise, which is
what `claimedSerialToIso` spells out; in particular serial `45000`
formats as `2023-03-15` and `45000.5` as `2023-03-15 12:00:00`. -/
theorem c4_date_serial_conversion (c : Cell) (shared : List String) (dates : List Int)
    (i : Int) (raw : String) (hi : pyInt (c.s.getD "0") = some i)
    (ht1 : c.t ≠ some "inlineStr") (ht2 : c.t ≠ some "s")
    (hv : c.v = some (some raw)) (hd : dates.contains i = true) :
    cell_value c shared dates = some ((excel_serial_to_iso raw).getD raw)
    ∧ (pyFloat raw = none → cell_value c shared dates = some raw)
    ∧ (∀ q : ℚ, pyFloat raw = some q →
        (epochUsec + usecOfDays q < 0 ∨
            maxUsec < epochUsec + usecOfDays q →
          cell_value c shared dates = some raw)
        ∧ (0 ≤ epochUsec + usecOfDays q →
            epochUsec + usecOfDays q ≤ maxUsec →
            excel_serial_to_iso raw = some (claimedSerialToIso q)))
    ∧ excel_serial_to_iso "45000" = some "2023-03-15"
    ∧ excel_serial_to_iso "45000.5" = some "2023-03-15 12:00:00" := by
  have key := cell_value_dated c shared dates i raw hi ht1 ht2 hv hd
  refine ⟨key, ?_, ?_, by decide, by decide⟩
  · intro hn
    rw [key, excel_iso_none_parse raw hn]
    rfl
  · intro q hq
    constructor
    · intro hout
      rw [key, excel_iso_out raw q hq hout]
      rfl
    · intro h0 hmax
      exact excel_iso_in raw q hq h0 hmax

theorem c4_date_serial_conversion_wit :
    excel_serial_to_iso "45000" = some "2023-03-15" :=
  (c4_date_serial_conversion ⟨none, some "3", none, some (some "45000")⟩ [] [(3 : Int)] 3
    "45000" (by decide) (by decide) (by decide) rfl (by decide)).2.2.2.1

/-! ## Date-style classification (towards C5) -/

/-- The condition under which the `cellXfs` loop marks a cell-format
record: its `numFmtId` attribute parses, and the id is either in the
built-in date set or maps to a custom format code that looks like a
date. -/
def dateXf (customs : List (Int × String)) (xf : Xf) : Prop :=
  ∃ id, pyInt (xf.numFmtId.getD "0") = some id ∧
    (is_builtin_date_numfmt id = true ∨
      ∃ code, customLookup customs id = some code ∧ looks_like_date_format code = true)

theorem exists_xf_cons (P : Xf → Prop) (xf : Xf) (rest : List Xf) (i : Nat) (j : Int) :
    (∃ kk x, (xf :: rest).get? kk = some x ∧ j = ((i + kk : Nat) : Int) ∧ P x)
    ↔ ((j = (i : Int) ∧ P xf)
        ∨ ∃ kk x, rest.get? kk = some x ∧ j = ((i + 1 + kk : Nat) : Int) ∧ P x) := by
  constructor
  · rintro ⟨kk, x, hget, hj, hp⟩
    cases kk with
    | zero =>
      left
      rw [List.get?_cons_zero] at hget
      injection hget with he
      subst he
      exact ⟨by rw [hj]; simp, hp⟩
    | succ m =>
      right
      rw [List.get?_cons_succ] at hget
      exact ⟨m, x, hget, by rw [hj]; congr 1; omega, hp⟩
  · rintro (⟨hj, hp⟩ | ⟨m, x, hget, hj, hp⟩)
    · exact ⟨0, xf, rfl, by rw [hj]; simp, hp⟩
    · exact ⟨m + 1, x, by rw [List.get?_cons_succ]; exact hget, by rw [hj]; congr 1; omega, hp⟩

theorem dateStylesLoop_mem (customs : List (Int × String)) :
    ∀ (xfs : List Xf) (i : Nat) (acc ds : List Int),
      dateStylesLoop customs xfs i acc = some ds →
      ∀ j : Int, j ∈ ds ↔
        j ∈ acc ∨ ∃ kk x, xfs.get? kk = some x ∧ j = ((i + kk : Nat) : Int) ∧ dateXf customs x := by
  intro xfs
  induction xfs with
  | nil =>
    intro i acc ds h j
    unfold dateStylesLoop at h
    injection h with h
    subst h
    simp
  | cons xf rest ih =>
    intro i acc ds h j
    unfold dateStylesLoop at h
    cases hid : pyInt (xf.numFmtId.getD "0") with
    | none => rw [hid] at h; exact absurd h (by simp)
    | some id =>
      simp only [hid] at h
      rw [exists_xf_cons (dateXf customs) xf rest i j]
      by_cases hb : is_builtin_date_numfmt id = true
      · rw [if_pos hb] at h
        have hdx : dateXf customs xf := ⟨id, hid, Or.inl hb⟩
        rw [ih (i + 1) (acc ++ [(i : Int)]) ds h j, List.mem_append, List.mem_singleton]
        constructor
        · rintro ((h1 | h2) | hR)
          · exact Or.inl h1
          · exact Or.inr (Or.inl ⟨h2, hdx⟩)
          · exact Or.inr (Or.inr hR)
        · rintro (h1 | (⟨h2, _⟩ | hR))
          · exact Or.inl (Or.inl h1)
          · exact Or.inl (Or.inr h2)
          · exact Or.inr hR
      · rw [if_neg hb] at h
        cases hcl : customLookup customs id with
        | some code =>
          simp only [hcl] at h
          by_cases hlk : looks_like_date_format code = true
          · rw [if_pos hlk] at h
            have hdx : dateXf customs xf := ⟨id, hid, Or.inr ⟨code, hcl, hlk⟩⟩
            rw [ih (i + 1) (acc ++ [(i : Int)]) ds h j, List.mem_append, List.mem_singleton]
            constructor
            · rintro ((h1 | h2) | hR)
              · exact Or.inl h1
              · exact Or.inr (Or.inl ⟨h2, hdx⟩)
              · exact Or.inr (Or.inr hR)
            · rintro (h1 | (⟨h2, _⟩ | hR))
              · exact Or.inl (Or.inl h1)
              · exact Or.inl (Or.inr h2)
              · exact Or.inr hR
          · rw [if_neg hlk] at h
            have hndx : ¬ dateXf customs xf := by
              rintro ⟨id2, hid2, hor⟩
              rw [hid] at hid2
              injection hid2 with he
              subst he
              rcases hor with hbb | ⟨code2, hc2, hl2⟩
              · exact hb hbb
              · rw [hcl] at hc2
                injection hc2 with hce
                subst hce
                exact hlk hl2
            rw [ih (i + 1) acc ds h j]
            constructor
            · rintro (h1 | hR)
              · exact Or.inl h1
              · exact Or.inr (Or.inr hR)
            · rintro (h1 | (⟨h2, hdx⟩ | hR))
              · exact Or.inl h1
              · exact absurd hdx hndx
              · exact Or.inr hR
        | none =>
          simp only [hcl] at h
          have hndx : ¬ dateXf customs xf := by
            rintro ⟨id2, hid2, hor⟩
            rw [hid] at hid2
            injection hid2 with he
            subst he
            rcases hor with hbb | ⟨code2, hc2, hl2⟩
            · exact hb hbb
            · rw [hcl] at hc2
              exact absurd hc2 (by simp)
          rw [ih (i + 1) acc ds h j]
          constructor
          · rintro (h1 | hR)
            · exact Or.inl h1
            · exact Or.inr (Or.inr hR)
          · rintro (h1 | (⟨h2, hdx⟩ | hR))
            · exact Or.inl h1
            · exact absurd hdx hndx
            · exact Or.inr hR

/-- C5: for a present styles part whose attributes parse, the set built
by `_load_date_styles` contains exactly the 0-based positions of the
`cellXfs` records that classify as date styles — the position in the
sequence is the style index (nothing else about the record enters the
set), and a record classifies as a date style precisely when its
numbering-format id is in the built-in set
{14,...,22,45,46,47} or maps to a custom format definition whose
lowercased code contains one of `y m d h s` (`dateXf` spells this out). -/
theorem c5_date_style_classification (sp : StylesPart) (customs : List (Int × String))
    (xfs : List Xf) (ds : List Int)
    (hc : customFmts (sp.numFmts.getD []) = some customs)
    (hx : sp.cellXfs = some xfs)
    (hd : load_date_styles (some sp) = some ds) :
    ∀ j : Int, j ∈ ds ↔ ∃ kk x, xfs.get? kk = some x ∧ j = (kk : Int) ∧ dateXf customs x := by
  intro j
  unfold load_date_styles at hd
  simp only [hc, hx] at hd
  have := dateStylesLoop_mem customs xfs 0 [] ds hd j
  simpa using this

/-- Styles part with one custom date-looking format 164 and three
cell-format records: built-in date id 14, custom id 164, numeric id 2. -/
def spWit : StylesPart :=
  ⟨some [⟨some "164", some "yyyy"⟩], some [⟨some "14"⟩, ⟨some "164"⟩, ⟨some "2"⟩]⟩

theorem c5_date_style_classification_wit :
    load_date_styles (some spWit) = some [0, 1] ∧ (1 : Int) ∈ ([0, 1] : List Int) :=
  ⟨by decide,
    (c5_date_style_classification spWit [(164, "yyyy")] [⟨some "14"⟩, ⟨some "164"⟩, ⟨some "2"⟩]
      [0, 1] (by decide) rfl (by decide) 1).mpr
      ⟨1, ⟨some "164"⟩, by decide, by decide, 164, by decide,
        Or.inr ⟨"yyyy", by decide, by decide⟩⟩⟩

/-! ## Sheet assembly lemmas (towards C6, C2, C7) -/

theorem rowsLoop_spec (shared : List String) (dates : List Int) (nh : List String) :
    ∀ (drows : List Row) (vss : List (List String)) (acc : List Record),
      drows.mapM (resolveRow shared dates) = some vss →
      rowsLoop shared dates nh drows acc =
        some (acc ++ (vss.filter (fun vs => !vs.all (fun v => v == ""))).map
          (fun vs => recordLoop vs nh 0 [])) := by
  intro drows
  induction drows with
  | nil =>
    intro vss acc h
    simp only [List.mapM_nil] at h
    injection h with h
    subst h
    simp [rowsLoop]
  | cons r rest ih =>
    intro vss acc h
    rw [List.mapM_cons] at h
    cases hr : resolveRow shared dates r with
    | none => rw [hr] at h; simp at h
    | some values =>
      rw [hr] at h
      cases hrest : rest.mapM (resolveRow shared dates) with
      | none => rw [hrest] at h; simp at h
      | some vs2 =>
        rw [hrest] at h
        simp only [Option.pure_def, Option.bind_eq_bind, Option.some_bind,
          Option.some.injEq] at h
        subst h
        show (match resolveRow shared dates r with
          | none => none
          | some values =>
            if values.all (fun v => v == "") then rowsLoop shared dates nh rest acc
            else rowsLoop shared dates nh rest (acc ++ [recordLoop values nh 0 []])) = _
        simp only [hr]
        by_cases hall : values.all (fun v => v == "") = true
        · rw [if_pos hall, ih vs2 acc hrest]
          simp [List.filter_cons, hall]
        · rw [if_neg hall, ih vs2 _ hrest]
          have hall' : (!values.all (fun v => v == "")) = true := by
            simp [Bool.eq_false_iff.mpr hall]
          simp [List.filter_cons, hall']

/-- C6: a data row resolving to all-empty trimmed values contributes no
record, and a row with at least one non-empty trimmed value contributes
exactly one record (built by the header loop): the assembled sheet is the
per-row map over exactly the rows passing the non-empty filter.  The two
concrete conjuncts are the claim's examples: headers `["A","B"]` with row
`["", "  "]` emit nothing, and with row `["", "x"]` emit
`{"A": "", "B": "x"}`. -/
theorem c6_empty_row_filter :
    (∀ (shared : List String) (dates : List Int) (hrow : Row) (drows : List Row)
        (hs : List String) (vss : List (List String)),
        resolveRow shared dates hrow = some hs →
        drows.mapM (resolveRow shared dates) = some vss →
        assembleSheet shared dates ⟨hrow :: drows⟩ =
          some ((vss.filter (fun vs => !vs.all (fun v => v == ""))).map
            (fun vs => recordLoop vs (hs.filter (fun h => h != "")) 0 [])))
    ∧ assembleSheet [] [] ⟨[⟨[rawCell "A", rawCell "B"]⟩, ⟨[rawCell "", rawCell "  "]⟩]⟩ =
        some []
    ∧ assembleSheet [] [] ⟨[⟨[rawCell "A", rawCell "B"]⟩, ⟨[rawCell "", rawCell "x"]⟩]⟩ =
        some [[("A", ""), ("B", "x")]] := by
  refine ⟨?_, by decide, by decide⟩
  intro shared dates hrow drows hs vss hh hm
  show (match resolveRow shared dates hrow with
    | none => none
    | some headers =>
      rowsLoop shared dates (headers.filter (fun h => h != "")) drows []) = _
  simp only [hh]
  rw [rowsLoop_spec shared dates _ drows vss [] hm]
  simp

theorem c6_empty_row_filter_wit :
    assembleSheet [] [] ⟨[⟨[rawCell "A", rawCell "B"]⟩, ⟨[rawCell "", rawCell "x"]⟩,
      ⟨[rawCell " ", rawCell ""]⟩]⟩ = some [[("A", ""), ("B", "x")]] :=
  ((c6_empty_row_filter).1 [] [] ⟨[rawCell "A", rawCell "B"]⟩
    [⟨[rawCell "", rawCell "x"]⟩, ⟨[rawCell " ", rawCell ""]⟩] ["A", "B"]
    [["", "x"], ["", ""]] (by decide) (by decide)).trans (by decide)

theorem sheetsLoop_keys (ws : List (String × SheetPart)) (shared : List String)
    (dates : List Int) :
    ∀ (targets : List (String × String)) (sheets res : List (String × List Record)),
      sheetsLoop ws shared dates targets sheets = some res →
      ∀ k, k ∈ res.map Prod.fst →
        k ∈ sheets.map Prod.fst ∨
          ∃ nt, nt ∈ targets ∧ nt.1 = k ∧ (ws.lookup nt.2).isSome = true := by
  intro targets
  induction targets with
  | nil =>
    intro sheets res h k hk
    unfold sheetsLoop at h
    injection h with h
    subst h
    exact Or.inl hk
  | cons nt rest ih =>
    rcases nt with ⟨name, target⟩
    intro sheets res h k hk
    unfold sheetsLoop at h
    cases hlt : ws.lookup target with
    | none =>
      rw [hlt] at h
      rcases ih sheets res h k hk with h1 | ⟨nt2, hm, he, hs⟩
      · exact Or.inl h1
      · exact Or.inr ⟨nt2, List.mem_cons_of_mem _ hm, he, hs⟩
    | some part =>
      simp only [hlt] at h
      cases has : assembleSheet shared dates part with
      | none => rw [has] at h; exact absurd h (by simp)
      | some recs =>
        simp only [has] at h
        rcases ih _ res h k hk with h1 | ⟨nt2, hm, he, hs⟩
        · rcases (dictInsert_keys_mem sheets name k recs).mp h1 with heq | h2
          · exact Or.inr ⟨(name, target), List.mem_cons_self _ _, heq.symm, by rw [hlt]; rfl⟩
          · exact Or.inl h2
        · exact Or.inr ⟨nt2, List.mem_cons_of_mem _ hm, he, hs⟩

/-- C2 (counterexample): on the archive declaring sheet `S` whose
resolved target is absent, decoding succeeds but the result holds no
entry for `"S"` at all — the sheet name is not mapped to an empty record
list as the claim states. -/
theorem c2_missing_part_cex :
    (workbook_to_dict archMissingPart).isSome = true
    ∧ Option.bind (workbook_to_dict archMissingPart) (fun r => List.lookup "S" r) = none := by
  refine ⟨by decide, by decide⟩

/-- C2 (amended): a declared sheet whose resolved target is not an entry
of the archive is skipped silently — the sheet loop steps over it without
error and creates no key, so every key of a successful decode comes from
a resolved sheet whose target part is present in the archive. -/
theorem c2_missing_part_skipped :
    (∀ (ws : List (String × SheetPart)) (shared : List String) (dates : List Int)
        (name target : String) (rest : List (String × String))
        (sheets : List (String × List Record)), ws.lookup target = none →
        sheetsLoop ws shared dates ((name, target) :: rest) sheets =
          sheetsLoop ws shared dates rest sheets)
    ∧ ∀ (a : Archive) (res : List (String × List Record)) (k : String),
        workbook_to_dict a = some res → k ∈ res.map Prod.fst →
        ∃ nt, nt ∈ sheet_targets a.workbook a.rels ∧ nt.1 = k ∧
          (a.worksheets.lookup nt.2).isSome = true := by
  constructor
  · intro ws shared dates name target rest sheets hl
    have step : sheetsLoop ws shared dates ((name, target) :: rest) sheets =
        match ws.lookup target with
        | none => sheetsLoop ws shared dates rest sheets
        | some part =>
          match assembleSheet shared dates part with
          | none => none
          | some recs => sheetsLoop ws shared dates rest (dictInsert sheets name recs) := rfl
    rw [step, hl]
  · intro a res k h hk
    unfold workbook_to_dict at h
    cases hds : load_date_styles a.styles with
    | none => rw [hds] at h; exact absurd h (by simp)
    | some dates =>
      simp only [hds] at h
      rcases sheetsLoop_keys a.worksheets _ dates _ [] res h k hk with h1 | h2
      · simp at h1
      · exact h2

/-- Archive declaring one sheet `S` whose resolved target part is present
(with zero rows). -/
def archOnePart : Archive :=
  ⟨[⟨some "S", some "rid1"⟩], [⟨"rid1", some "worksheets/sheet1.xml"⟩], none, none,
    [("xl/worksheets/sheet1.xml", ⟨[]⟩)]⟩

theorem c2_missing_part_skipped_wit :
    ∃ nt, nt ∈ sheet_targets archOnePart.workbook archOnePart.rels ∧ nt.1 = "S" ∧
      (archOnePart.worksheets.lookup nt.2).isSome = true :=
  (c2_missing_part_skipped).2 archOnePart [("S", [])] "S" (by decide) (by decide)

theorem relLookup_none (rels : List RelEntry) (rid : String)
    (h : ∀ r ∈ rels, r.Id ≠ rid) : relLookup rels rid = none := by
  unfold relLookup
  have hf : rels.reverse.find? (fun r => r.Id == rid) = none :=
    List.find?_eq_none.mpr
      (fun r hr hbeq => h r (List.mem_reverse.mp hr) (beq_iff_eq.mp hbeq))
  rw [hf]
  rfl

/-- C7: a declared sheet whose relationship identifier has no entry in
the relationship map is dropped silently: the resolved sheet sequence is
the same as if the sheet were not declared at all, and so is the whole
decode result — no key is created and no error is raised. -/
theorem c7_unresolved_rel_dropped (pre post : List Sheet) (sh : Sheet)
    (rels : List RelEntry) (sstv : Option (List (List (Option String))))
    (stylesv : Option StylesPart) (ws : List (String × SheetPart))
    (h : ∀ r ∈ rels, r.Id ≠ sh.rid.getD "") :
    sheet_targets (pre ++ sh :: post) rels = sheet_targets (pre ++ post) rels
    ∧ workbook_to_dict ⟨pre ++ sh :: post, rels, sstv, stylesv, ws⟩ =
        workbook_to_dict ⟨pre ++ post, rels, sstv, stylesv, ws⟩ := by
  have hrl : relLookup rels (sh.rid.getD "") = none := relLookup_none rels _ h
  have hst : sheet_targets (pre ++ sh :: post) rels = sheet_targets (pre ++ post) rels := by
    unfold sheet_targets
    rw [List.filterMap_append, List.filterMap_append]
    congr 1
    rw [List.filterMap_cons]
    simp only [hrl]
    rfl
  refine ⟨hst, ?_⟩
  show (match load_date_styles stylesv with
    | none => none
    | some dates =>
      sheetsLoop ws (load_shared_strings sstv) dates
        (sheet_targets (pre ++ sh :: post) rels) []) = _
  rw [hst]
  rfl

theorem c7_unresolved_rel_dropped_wit :
    sheet_targets [⟨some "S", some "missing"⟩] [⟨"rid1", some "t.xml"⟩] =
      sheet_targets [] [⟨"rid1", some "t.xml"⟩] :=
  (c7_unresolved_rel_dropped [] [] ⟨some "S", some "missing"⟩ [⟨"rid1", some "t.xml"⟩]
    none none [] (by decide)).1
